import Mathlib

/-!
Verification of the user-analytics pipeline in `src/app.py`
(Streamlit dashboard: fetch users over HTTP, persist to SQLite,
reload into a pandas DataFrame, derive columns, aggregate, render).

The script is straight-line Python; we embed each stage as an explicit
Lean function:

* a `UserRecord` mirrors one row of the SQLite `users` table
  (`id INTEGER PRIMARY KEY`, all other columns nullable `TEXT`);
* `pyStr` models Python's `str()` coercion applied by
  `df['name'].astype(str)` — crucially `str(None) = "None"`;
* `pySplit` models Python's `str.split` with an explicit one-character
  separator (keeps empty fields, so the result list is never empty);
* `email_domain` models
  `x.split('@')[-1].lower() if '@' in str(x) else None` (app.py line 132);
* the SQLite table is modelled as a list of rows kept in rowid order;
  since `id` is the `INTEGER PRIMARY KEY` (the rowid), `INSERT OR
  REPLACE` keyed on `id` is a sorted insertion that replaces an
  existing row in place, and `SELECT * FROM users` without `ORDER BY`
  scans the rowid B-tree, i.e. returns rows in ascending `id` order;
* pandas aggregations `value_counts()` / `nunique()` use their default
  `dropna=True` semantics: null values (absent email domains) are
  dropped before counting;
* `mean` on an empty column yields NaN, modelled as `none`
  (an explicit no-data marker); likewise `max`.

Strings are handled through their character lists; `Char.toLower`
models Python's `str.lower` (the inputs of interest are ASCII).
-/

/-- One row of the `users` table: `id INTEGER PRIMARY KEY`, the other
five columns are nullable `TEXT` (the script inserts `u.get(...)`,
which may be `None`). -/
structure UserRecord where
  id : Int
  name : Option String
  username : Option String
  email : Option String
  phone : Option String
  website : Option String
deriving DecidableEq, Repr

/-- Python's `str()` coercion as applied by `astype(str)` to a nullable
text column: a present string is unchanged, SQL `NULL` (Python `None`)
becomes the four-character string `"None"`. -/
def pyStr : Option String → String
  | none => "None"
  | some s => s

/-- Python's `s.lower()` restricted to the ASCII case mapping. -/
def pyLower (s : String) : String :=
  String.mk (s.toList.map Char.toLower)

/-- Python's `s.split(sep)` for a one-character separator, on the
character list: splits at every occurrence of `sep`, keeping empty
fields, so the result always has at least one group. -/
def pySplit (sep : Char) : List Char → List (List Char)
  | [] => [[]]
  | c :: cs =>
    match pySplit sep cs with
    | [] => [[]]
    | g :: gs => if c = sep then [] :: g :: gs else (c :: g) :: gs

/-- `x.split(sep)[-1]`: the last group produced by `pySplit` (which is
never empty, so the `getD` default is never taken). -/
def pySplitLast (sep : Char) (s : String) : String :=
  String.mk (((pySplit sep s.toList).getLast?).getD [])

/-- app.py line 131: `df['name_length'] = df['name'].astype(str).apply(len)`. -/
def name_length (r : UserRecord) : Nat :=
  (pyStr r.name).length

/-- app.py line 132:
`df['email_domain'] = df['email'].astype(str).apply(lambda x: x.split('@')[-1].lower() if '@' in str(x) else None)`. -/
def email_domain (r : UserRecord) : Option String :=
  let x := pyStr r.email
  if '@' ∈ x.toList then some (pyLower (pySplitLast '@' x)) else none

/-- A `UserRecord` together with the two derived columns. -/
structure EnrichedUserRecord where
  base : UserRecord
  name_length : Nat
  email_domain : Option String
deriving DecidableEq, Repr

/-- Row-wise enrichment of one record (pandas column assignments are
element-wise maps over the rows). -/
def enrichRecord (r : UserRecord) : EnrichedUserRecord :=
  ⟨r, name_length r, email_domain r⟩

/-- The enrichment step (app.py lines 131–132) over the whole frame. -/
def enrich (rs : List UserRecord) : List EnrichedUserRecord :=
  rs.map enrichRecord

/-- Modelled from the spec: `textual` coercion in which a missing name
has "an empty representation", so that its length is 0 (§4.3 of the
spec).  This is the spec's reading of the coercion, to be compared with
`pyStr`, the coercion the code actually performs. -/
def textualSpec : Option String → String
  | none => ""
  | some s => s

/-- Modelled from the spec: "the substring after the last `'@'`" — if
`sep` still occurs in the tail the answer is decided there, otherwise a
leading `sep` is stripped, otherwise the whole string remains (for a
string without `sep`, the whole string). -/
def afterLast (sep : Char) : List Char → List Char
  | [] => []
  | c :: cs =>
    if sep ∈ cs then afterLast sep cs
    else if c = sep then cs
    else c :: cs

/-! ### Aggregation (app.py lines 137–166, 197–198)

pandas column aggregations, embedded over the list of rows.  The
`email_domain` column is a `List (Option String)`; pandas treats the
`None` entries as nulls and, with the default `dropna=True`, both
`value_counts()` and `nunique()` discard them before counting. -/

/-- `series.nunique()` (default `dropna=True`): the number of distinct
non-null values (app.py lines 150–151). -/
def nunique (xs : List (Option String)) : Nat :=
  (xs.filterMap id).dedup.length

/-- `series.value_counts()` (default `dropna=True`): the occurrence
count of each distinct non-null value (app.py line 197).  pandas
additionally orders the pairs by descending count; none of the claims
depends on that order, so the pairs are listed per distinct value. -/
def value_counts (xs : List (Option String)) : List (String × Nat) :=
  let present := xs.filterMap id
  present.dedup.map (fun v => (v, present.count v))

/-- `series.max()` over the `name_length` column: `none` models the NaN
that pandas returns on an empty series. -/
def listMax : List Nat → Option Nat
  | [] => none
  | x :: xs =>
    match listMax xs with
    | none => some x
    | some m => some (Nat.max x m)

/-- `series.mean()` over the `name_length` column, as an exact
rational; `none` models the NaN that pandas returns on an empty
series. -/
def listMean (xs : List Nat) : Option ℚ :=
  if xs.length = 0 then none else some ((xs.sum : ℚ) / (xs.length : ℚ))

/-- The summary metrics the dashboard renders (app.py lines 137–166 and
the pie/bar data at lines 197–198), computed per run and discarded. -/
structure AggregateView where
  total_count : Nat
  distinct_domain_count : Nat
  domain_counts : List (String × Nat)
  mean_name_length : Option ℚ
  max_name_length : Option Nat
deriving DecidableEq, Repr

/-- The aggregation stage: `len(df)`, `df['email_domain'].nunique()`,
`df['email_domain'].value_counts()`, `df['name_length'].mean()`,
`df['name_length'].max()`. -/
def aggregate (rs : List UserRecord) : AggregateView where
  total_count := rs.length
  distinct_domain_count := nunique (rs.map email_domain)
  domain_counts := value_counts (rs.map email_domain)
  mean_name_length := listMean (rs.map name_length)
  max_name_length := listMax (rs.map name_length)

/-! ### Repository (app.py lines 95–126)

The SQLite `users` table has `id INTEGER PRIMARY KEY`, so `id` *is*
the rowid and the table's B-tree is keyed on it.  We model the table
as its list of rows in rowid order.  `INSERT OR REPLACE` keyed on `id`
inserts at the sorted position, replacing in place a row that already
bears that id.  `SELECT * FROM users` with no `ORDER BY` scans the
B-tree, i.e. yields the rows in ascending `id` order — exactly the
list we maintain. -/

/-- One `INSERT OR REPLACE INTO users ... VALUES (...)` (app.py lines
111–116) against a table held in rowid (= `id`) order. -/
def insertById (r : UserRecord) : List UserRecord → List UserRecord
  | [] => [r]
  | x :: xs =>
    if r.id < x.id then r :: x :: xs
    else if r.id = x.id then r :: xs
    else x :: insertById r xs

/-- The write path (app.py lines 95–119): `DROP TABLE IF EXISTS users`
discards the previous contents, `CREATE TABLE` starts from the empty
table, and the loop upserts each fetched record in order. -/
def replaceAll (prev : List UserRecord) (records : List UserRecord) :
    List UserRecord :=
  let _ := prev
  records.foldl (fun tbl r => insertById r tbl) []

/-- The read path (app.py lines 124–126):
`pd.read_sql_query('SELECT * FROM users', conn)` — a full scan of the
rowid B-tree, returning the rows in rowid order. -/
def loadAll (tbl : List UserRecord) : List UserRecord :=
  tbl

/-! ### Fetch stage and pipeline halt behaviour (app.py lines 81–90)

The script issues one `requests.get` with `timeout=20`.  A non-200
status prints an error and calls `st.stop()`: the run halts before the
storage section (lines 95–119) and before any chart is rendered.  A
raised exception (network failure) is caught and does the same. -/

/-- Outcome of the single HTTP attempt. -/
inductive HttpResult where
  | response (status : Nat) (users : List UserRecord)
  | connError (msg : String)
deriving DecidableEq, Repr

/-- Observable outcome of one script run: the persisted table after the
run, whether `st.stop()` halted the script, the `st.error` message if
any, and whether the dashboard body (metrics/charts) was rendered. -/
structure RunResult where
  table : List UserRecord
  halted : Bool
  errorMsg : Option String
  rendered : Bool
deriving DecidableEq, Repr

/-- The control flow of app.py lines 81–126 around the fetch: on a
non-200 status or a connection error the script reports the error and
stops with the table untouched; otherwise it rewrites the table and
proceeds to render. -/
def runPipeline (http : HttpResult) (prevTable : List UserRecord) :
    RunResult :=
  match http with
  | .connError msg =>
      { table := prevTable, halted := true,
        errorMsg := some ("Error de conexión: " ++ msg), rendered := false }
  | .response status users =>
      if status ≠ 200 then
        { table := prevTable, halted := true,
          errorMsg := some ("Error al consumir la API (" ++ toString status ++ ")"),
          rendered := false }
      else
        { table := replaceAll prevTable users, halted := false,
          errorMsg := none, rendered := true }

/-! ### Resource release in the write path (app.py lines 95–119)

The write path is straight-line code with no `try`/`finally` and no
`with` block: `conn.close()` is simply the statement after
`conn.commit()`.  We model the sequence of fallible SQLite statements
and whether `conn.close()` is reached when one of them raises. -/

/-- The fallible SQLite statements executed between `sqlite3.connect`
and `conn.close()` in the write path. -/
inductive WriteStep where
  | dropTable
  | createTable
  | insertRow (i : Nat)
  | commit
deriving DecidableEq, Repr

/-- The statement sequence of app.py lines 98–118 for a batch of `n`
records: drop, create, one insert per record, commit. -/
def writeSteps (n : Nat) : List WriteStep :=
  WriteStep.dropTable :: WriteStep.createTable ::
    ((List.range n).map WriteStep.insertRow ++ [WriteStep.commit])

/-- What a run of the write scope observably did: whether
`conn.close()` executed, and the statement whose exception aborted the
scope, if any. -/
structure WriteOutcome where
  connClosed : Bool
  raised : Option WriteStep
deriving DecidableEq, Repr

/-- Straight-line execution of the write scope: each statement runs in
order; the first failing statement raises, and the exception propagates
past the trailing `conn.close()`, which therefore does not execute.  If
every statement succeeds, control reaches `conn.close()`. -/
def execWrite (fails : WriteStep → Bool) : List WriteStep → WriteOutcome
  | [] => ⟨true, none⟩
  | s :: rest => if fails s then ⟨false, some s⟩ else execWrite fails rest

/-- The spec's reading of `distinct_domain_count`: the number of unique
`email_domain` values where the absent marker counts as one distinct
value whenever some record lacks a domain (spec §4.4).  To be compared
with `nunique`, the count the code computes. -/
def distinctDomainsSpec (rs : List UserRecord) : Nat :=
  ((rs.map email_domain).dedup).length

-- Tiny sanity examples (JSONPlaceholder-style record).
example :
    email_domain ⟨1, some ("Leanne Graham"), some ("Bret"),
      some ("Sincere@april.biz"), none, none⟩ = some ("april.biz") := by
  decide

example : name_length ⟨1, none, none, none, none, none⟩ = 4 := by decide

/-! ## Lemmas about `pySplit` and `afterLast` -/

theorem pySplit_ne_nil (sep : Char) (l : List Char) : pySplit sep l ≠ [] := by
  cases l with
  | nil => simp [pySplit]
  | cons c cs =>
    simp only [pySplit]
    cases h : pySplit sep cs with
    | nil => simp
    | cons g gs =>
      by_cases hc : c = sep <;> simp [hc]

theorem afterLast_of_not_mem {sep : Char} {l : List Char} (h : sep ∉ l) :
    afterLast sep l = l := by
  cases l with
  | nil => rfl
  | cons c cs =>
    have hc : c ≠ sep := fun hcs => h (hcs ▸ List.mem_cons_self c cs)
    have hcs : sep ∉ cs := fun hm => h (List.mem_cons_of_mem c hm)
    simp [afterLast, hcs, hc]

theorem pySplit_of_not_mem {sep : Char} {l : List Char} (h : sep ∉ l) :
    pySplit sep l = [l] := by
  induction l with
  | nil => rfl
  | cons c cs ih =>
    have hc : c ≠ sep := fun hcs => h (hcs ▸ List.mem_cons_self c cs)
    have hcs : sep ∉ cs := fun hm => h (List.mem_cons_of_mem c hm)
    simp [pySplit, ih hcs, hc]

theorem two_le_length_pySplit {sep : Char} {l : List Char} (h : sep ∈ l) :
    2 ≤ (pySplit sep l).length := by
  induction l with
  | nil => cases h
  | cons c cs ih =>
    simp only [pySplit]
    cases hps : pySplit sep cs with
    | nil => exact absurd hps (pySplit_ne_nil sep cs)
    | cons g gs =>
      by_cases hc : c = sep
      · simp [hc]
      · have hm : sep ∈ cs := by
          rcases List.mem_cons.mp h with h1 | h2
          · exact absurd h1.symm hc
          · exact h2
        have := ih hm
        rw [hps] at this
        simp only [List.length_cons] at this ⊢
        simp [hc]
        omega

theorem pySplit_getLast? (sep : Char) (l : List Char) :
    (pySplit sep l).getLast? = some (afterLast sep l) := by
  induction l with
  | nil => rfl
  | cons c cs ih =>
    simp only [pySplit, afterLast]
    cases hps : pySplit sep cs with
    | nil => exact absurd hps (pySplit_ne_nil sep cs)
    | cons g gs =>
      rw [hps] at ih
      by_cases hc : c = sep
      · -- a leading separator adds an empty leading group; the last
        -- group — hence the suffix after the last separator — is
        -- unchanged
        by_cases hm : sep ∈ cs
        · simp [hc, List.getLast?_cons_cons, ih, hm]
        · rw [afterLast_of_not_mem hm] at ih
          simp [hc, List.getLast?_cons_cons, ih, hm]
      · by_cases hm : sep ∈ cs
        · -- the separator occurs further right: the head character is
          -- absorbed into the first group, the last group survives
          have h2 := two_le_length_pySplit hm
          rw [hps] at h2
          cases gs with
          | nil => simp at h2
          | cons g' gs' =>
            simp only [List.getLast?_cons_cons] at ih
            simp [hc, hm, List.getLast?_cons_cons, ih]
        · -- no separator at all: one single group, the whole string
          have := pySplit_of_not_mem hm
          rw [hps] at this
          cases this
          simp [hc, hm]

theorem pySplitLast_eq_afterLast (sep : Char) (s : String) :
    pySplitLast sep s = String.mk (afterLast sep s.toList) := by
  rw [pySplitLast, pySplit_getLast?]
  rfl

/-! ## C1 — `name_length` of a missing name -/

/-- C1 (counterexample): the claim says a missing/null name yields
`name_length = 0`; the code coerces `None` to the string `"None"` and
takes its length, producing 4, not 0. -/
theorem C1_missing_name_counterexample :
    (enrich [⟨1, none, none, none, none, none⟩]).map
        EnrichedUserRecord.name_length = [4] ∧
      ¬ (enrich [⟨1, none, none, none, none, none⟩]).map
          EnrichedUserRecord.name_length = [0] := by
  constructor
  · decide
  · decide

/-- C1 (amended): for every record `r`, the derived `name_length`
equals the length of the textual (Python `str`) representation of
`r.name`; for a missing name that representation is `"None"`, so
`name_length = 4` (not 0). -/
theorem C1_name_length_of_textual (r : UserRecord) :
    (enrich [r]).map EnrichedUserRecord.name_length =
        [(pyStr r.name).length] ∧
      (r.name = none →
        (enrich [r]).map EnrichedUserRecord.name_length = [4]) := by
  constructor
  · simp [enrich, enrichRecord, name_length]
  · intro h
    simp only [enrich, enrichRecord, name_length, h, pyStr, List.map_cons,
      List.map_nil]
    decide

/-- C1 witness: the amended theorem applied to a concrete record with a
missing name. -/
theorem C1_name_length_witness :
    (enrich [⟨7, none, none, none, none, none⟩]).map
      EnrichedUserRecord.name_length = [4] :=
  (C1_name_length_of_textual ⟨7, none, none, none, none, none⟩).2 rfl

/-! ## C4 — `email_domain` derivation -/

/-- C4: for every record whose (coerced) email contains `'@'`, the
derived `email_domain` is the lowercased suffix after the *last* `'@'`;
otherwise — including a missing email, whose coercion `"None"` contains
no `'@'` — it is the absent marker `none`. -/
theorem C4_email_domain_after_last_at (r : UserRecord) :
    (email_domain r =
        if '@' ∈ (pyStr r.email).toList then
          some (pyLower (String.mk (afterLast '@' (pyStr r.email).toList)))
        else none) ∧
      (r.email = none → email_domain r = none) := by
  constructor
  · rw [email_domain, pySplitLast_eq_afterLast]
  · intro h
    rw [email_domain, h]
    decide

/-- C4 witness: concrete evaluations — an email with two `'@'`s maps to
the lowercased suffix after the last one, and a record with a missing
email gets the absent marker. -/
theorem C4_email_domain_witness :
    email_domain ⟨3, none, none, none, none, none⟩ = none ∧
      email_domain ⟨4, none, none, some ("a@b@X.COM"), none, none⟩ =
        some ("x.com") :=
  ⟨(C4_email_domain_after_last_at ⟨3, none, none, none, none, none⟩).2 rfl,
   by decide⟩

/-! ## Counting lemmas for the aggregation claims -/

theorem sum_map_indicator_nodup {α : Type _} [DecidableEq α] (a : α)
    (s : List α) (hs : s.Nodup) :
    (s.map fun v => if a = v then (1:Nat) else 0).sum =
      if a ∈ s then 1 else 0 := by
  induction s with
  | nil => simp
  | cons b s' ih =>
    rcases List.nodup_cons.mp hs with ⟨hb, hs'⟩
    by_cases hab : a = b
    · subst hab
      rw [List.map_cons, List.sum_cons, if_pos rfl, ih hs',
        if_neg hb, if_pos (List.mem_cons_self a s')]
    · rw [List.map_cons, List.sum_cons, if_neg hab, ih hs']
      by_cases hm : a ∈ s'
      · rw [if_pos hm, if_pos (List.mem_cons_of_mem b hm)]
      · rw [if_neg hm, if_neg (by simp [List.mem_cons, hab, hm])]

theorem sum_map_count_dedup {α : Type _} [DecidableEq α] (l : List α) :
    (l.dedup.map fun v => l.count v).sum = l.length := by
  induction l with
  | nil => simp
  | cons a t ih =>
    by_cases hm : a ∈ t
    · rw [List.dedup_cons_of_mem hm]
      have hsplit : (t.dedup.map fun v => (a :: t).count v).sum
          = (t.dedup.map fun v => t.count v).sum
            + (t.dedup.map fun v => if a = v then (1:Nat) else 0).sum := by
        rw [← List.sum_map_add]
        apply congrArg
        apply List.map_congr_left
        intro v _
        simp [List.count_cons, beq_iff_eq]
      rw [hsplit, ih, sum_map_indicator_nodup a t.dedup t.nodup_dedup,
        if_pos (List.mem_dedup.mpr hm)]
      simp only [List.length_cons]
    · rw [List.dedup_cons_of_not_mem hm, List.map_cons, List.sum_cons]
      have hhead : (a :: t).count a = 1 := by
        simp [List.count_cons, List.count_eq_zero.mpr hm]
      have htail : (t.dedup.map fun v => (a :: t).count v)
          = t.dedup.map fun v => t.count v := by
        apply List.map_congr_left
        intro v hv
        have hva : a ≠ v := fun h => hm (h ▸ List.mem_dedup.mp hv)
        simp [List.count_cons, beq_iff_eq, hva]
      rw [hhead, htail, ih]
      simp only [List.length_cons]
      omega

theorem mem_filterMap_id {α : Type _} (a : α) (l : List (Option α)) :
    a ∈ l.filterMap id ↔ some a ∈ l := by
  simp

theorem length_dedup_filterMap_id {α : Type _} [DecidableEq α]
    (l : List (Option α)) :
    (l.filterMap id).dedup.length + (if none ∈ l then 1 else 0) =
      l.dedup.length := by
  induction l with
  | nil => simp
  | cons o t ih =>
    cases o with
    | none =>
      have hfm : (none :: t).filterMap (id : Option α → Option α)
          = t.filterMap id := by simp
      rw [hfm, if_pos (List.mem_cons_self none t)]
      by_cases hm : (none : Option α) ∈ t
      · rw [List.dedup_cons_of_mem hm]
        rw [if_pos hm] at ih
        omega
      · rw [List.dedup_cons_of_not_mem hm, List.length_cons]
        rw [if_neg hm] at ih
        omega
    | some a =>
      have hfm : ((some a) :: t).filterMap (id : Option α → Option α)
          = a :: t.filterMap id := by simp
      have hnone : ((none : Option α) ∈ (some a) :: t) ↔ (none ∈ t) := by
        simp
      by_cases hm : (some a) ∈ t
      · rw [hfm, List.dedup_cons_of_mem ((mem_filterMap_id a t).mpr hm),
          List.dedup_cons_of_mem hm]
        by_cases hn : (none : Option α) ∈ t
        · rw [if_pos ((hnone).mpr hn)]
          rw [if_pos hn] at ih
          omega
        · rw [if_neg (fun hc => hn (hnone.mp hc))]
          rw [if_neg hn] at ih
          omega
      · rw [hfm, List.dedup_cons_of_not_mem
            (fun hc => hm ((mem_filterMap_id a t).mp hc)),
          List.dedup_cons_of_not_mem hm, List.length_cons, List.length_cons]
        by_cases hn : (none : Option α) ∈ t
        · rw [if_pos ((hnone).mpr hn)]
          rw [if_pos hn] at ih
          omega
        · rw [if_neg (fun hc => hn (hnone.mp hc))]
          rw [if_neg hn] at ih
          omega

theorem length_filterMap_id_eq_countP {α : Type _} (l : List (Option α)) :
    (l.filterMap id).length = l.countP (fun o => o.isSome) := by
  induction l with
  | nil => rfl
  | cons o t ih =>
    cases o with
    | none => simpa [List.countP_cons] using ih
    | some a => simpa [List.countP_cons] using ih

/-! ## C2 — sum of `domain_counts` vs `total_count` -/

/-- C2 (counterexample): one record whose email has no `'@'` is a
non-empty input, yet `value_counts` (with its default `dropna=True`)
drops the absent domain: the counts sum to 0 while `total_count` is 1.
The absent-domain bucket is silently dropped. -/
theorem C2_domain_counts_counterexample :
    (((aggregate [⟨1, some ("Ann"), none, some ("invalid-email"), none,
              none⟩]).domain_counts.map Prod.snd).sum = 0) ∧
      ((aggregate [⟨1, some ("Ann"), none, some ("invalid-email"), none,
            none⟩]).total_count = 1) ∧
      ¬ (((aggregate [⟨1, some ("Ann"), none, some ("invalid-email"), none,
                none⟩]).domain_counts.map Prod.snd).sum
          = (aggregate [⟨1, some ("Ann"), none, some ("invalid-email"),
                none, none⟩]).total_count) := by
  refine ⟨?_, ?_, ?_⟩ <;> decide

/-- C2 (amended): the values of `domain_counts` sum to the number of
records whose `email_domain` is present, not to `total_count`: records
with an absent domain are excluded by `value_counts()`'s default
`dropna=True`. -/
theorem C2_domain_counts_sum (rs : List UserRecord) (_h : rs ≠ []) :
    ((aggregate rs).domain_counts.map Prod.snd).sum =
      rs.countP (fun r => (email_domain r).isSome) := by
  have h1 : (aggregate rs).domain_counts
      = ((rs.map email_domain).filterMap id).dedup.map
          (fun v => (v, ((rs.map email_domain).filterMap id).count v)) := rfl
  rw [h1, List.map_map]
  have h2 : (Prod.snd ∘ fun v =>
        (v, ((rs.map email_domain).filterMap id).count v))
      = fun v => ((rs.map email_domain).filterMap id).count v := rfl
  rw [h2, sum_map_count_dedup, length_filterMap_id_eq_countP,
    List.countP_map]
  rfl

/-- C2 witness: the amended sum identity on a concrete two-record batch
with one present and one absent domain. -/
theorem C2_domain_counts_sum_witness :
    ([(⟨1, some ("Ann"), none, some ("a@x.com"), none, none⟩ : UserRecord),
        ⟨2, none, none, none, none, none⟩] ≠ []) ∧
      (((aggregate [⟨1, some ("Ann"), none, some ("a@x.com"), none, none⟩,
              ⟨2, none, none, none, none, none⟩]).domain_counts.map
            Prod.snd).sum =
        ([(⟨1, some ("Ann"), none, some ("a@x.com"), none, none⟩ :
              UserRecord),
            ⟨2, none, none, none, none, none⟩].countP
          (fun r => (email_domain r).isSome))) :=
  ⟨by decide, C2_domain_counts_sum _ (by decide)⟩

/-! ## C3 — `distinct_domain_count` and the absent-domain bucket -/

/-- C3 (counterexample): one record without `'@'` in its email has the
absent domain; the spec counts that marker as one distinct value, but
`nunique()` (default `dropna=True`) ignores it and reports 0. -/
theorem C3_distinct_domains_counterexample :
    ((aggregate [⟨1, some ("Ann"), none, some ("no-at-sign"), none,
            none⟩]).distinct_domain_count = 0) ∧
      (distinctDomainsSpec [⟨1, some ("Ann"), none, some ("no-at-sign"),
          none, none⟩] = 1) ∧
      ¬ ((aggregate [⟨1, some ("Ann"), none, some ("no-at-sign"), none,
              none⟩]).distinct_domain_count
          = distinctDomainsSpec [⟨1, some ("Ann"), none,
              some ("no-at-sign"), none, none⟩]) := by
  refine ⟨?_, ?_, ?_⟩ <;> decide

/-- C3 (amended): `distinct_domain_count` counts the distinct *present*
domains only; it falls short of the spec's count (absent marker
included) by exactly one whenever some record has no email domain. -/
theorem C3_distinct_domains_drop_absent (rs : List UserRecord) :
    (aggregate rs).distinct_domain_count +
        (if none ∈ rs.map email_domain then 1 else 0) =
      distinctDomainsSpec rs := by
  have h1 : (aggregate rs).distinct_domain_count
      = ((rs.map email_domain).filterMap id).dedup.length := rfl
  rw [h1, distinctDomainsSpec]
  exact length_dedup_filterMap_id (rs.map email_domain)

/-! ## C9 — aggregation of zero records -/

/-- C9: aggregation applied to the empty batch is total and returns
zero `total_count`, zero `distinct_domain_count`, an empty
`domain_counts` mapping, and the explicit no-data marker (pandas NaN,
modelled `none`) for the mean and max name lengths. -/
theorem C9_aggregate_empty :
    (aggregate []).total_count = 0 ∧
      (aggregate []).distinct_domain_count = 0 ∧
      (aggregate []).domain_counts = [] ∧
      (aggregate []).mean_name_length = none ∧
      (aggregate []).max_name_length = none :=
  ⟨rfl, rfl, rfl, rfl, rfl⟩

/-! ## Repository lemmas: the upsert fold keeps the table id-sorted and,
for duplicate-free batches, is a permutation of the batch -/

theorem mem_insertById {r y : UserRecord} {tbl : List UserRecord}
    (h : y ∈ insertById r tbl) : y = r ∨ y ∈ tbl := by
  induction tbl with
  | nil => simpa [insertById] using h
  | cons x xs ih =>
    simp only [insertById] at h
    by_cases h1 : r.id < x.id
    · rw [if_pos h1] at h
      rcases List.mem_cons.mp h with h2 | h2
      · exact Or.inl h2
      · exact Or.inr h2
    · rw [if_neg h1] at h
      by_cases h2 : r.id = x.id
      · rw [if_pos h2] at h
        rcases List.mem_cons.mp h with h3 | h3
        · exact Or.inl h3
        · exact Or.inr (List.mem_cons_of_mem x h3)
      · rw [if_neg h2] at h
        rcases List.mem_cons.mp h with h3 | h3
        · exact Or.inr (h3 ▸ List.mem_cons_self x xs)
        · rcases ih h3 with h4 | h4
          · exact Or.inl h4
          · exact Or.inr (List.mem_cons_of_mem x h4)

theorem pairwise_insertById {r : UserRecord} {tbl : List UserRecord}
    (h : tbl.Pairwise (fun a b => a.id < b.id)) :
    (insertById r tbl).Pairwise (fun a b => a.id < b.id) := by
  induction tbl with
  | nil => simp [insertById]
  | cons x xs ih =>
    rcases List.pairwise_cons.mp h with ⟨hx, hxs⟩
    simp only [insertById]
    by_cases h1 : r.id < x.id
    · rw [if_pos h1]
      refine List.Pairwise.cons ?_ h
      intro y hy
      rcases List.mem_cons.mp hy with h2 | h2
      · rw [h2]; exact h1
      · exact lt_trans h1 (hx y h2)
    · rw [if_neg h1]
      by_cases h2 : r.id = x.id
      · rw [if_pos h2]
        refine List.Pairwise.cons ?_ hxs
        intro y hy
        rw [h2]
        exact hx y hy
      · rw [if_neg h2]
        refine List.Pairwise.cons ?_ (ih hxs)
        intro y hy
        have hxr : x.id < r.id := by omega
        rcases mem_insertById hy with h3 | h3
        · rw [h3]; exact hxr
        · exact hx y h3

theorem pairwise_replaceAll (prev records : List UserRecord) :
    (replaceAll prev records).Pairwise (fun a b => a.id < b.id) := by
  have h : ∀ (rs tbl : List UserRecord),
      tbl.Pairwise (fun a b => a.id < b.id) →
      (rs.foldl (fun t r => insertById r t) tbl).Pairwise
        (fun a b => a.id < b.id) := by
    intro rs
    induction rs with
    | nil => intro tbl ht; exact ht
    | cons r rest ih =>
      intro tbl ht
      exact ih _ (pairwise_insertById ht)
  exact h records [] List.Pairwise.nil

theorem insertById_perm {r : UserRecord} {tbl : List UserRecord}
    (h : r.id ∉ tbl.map (fun u => u.id)) :
    (insertById r tbl).Perm (r :: tbl) := by
  induction tbl with
  | nil => simp [insertById]
  | cons x xs ih =>
    have hx : r.id ≠ x.id := fun hc => h (by simp [hc])
    have hxs : r.id ∉ xs.map (fun u => u.id) := fun hc => h (by simp [hc])
    simp only [insertById]
    by_cases h1 : r.id < x.id
    · rw [if_pos h1]
    · rw [if_neg h1, if_neg hx]
      exact ((ih hxs).cons x).trans (List.Perm.swap r x xs)

theorem foldl_insertById_perm :
    ∀ (records tbl : List UserRecord),
      (records.map (fun u => u.id)).Nodup →
      (∀ s ∈ records, s.id ∉ tbl.map (fun u => u.id)) →
      (records.foldl (fun t r => insertById r t) tbl).Perm
        (records ++ tbl) := by
  intro records
  induction records with
  | nil => intro tbl _ _; simp
  | cons r rest ih =>
    intro tbl hnd hdisj
    have hnd' : (r.id :: rest.map (fun u => u.id)).Nodup := by
      simpa using hnd
    rcases List.nodup_cons.mp hnd' with ⟨hr, hrest⟩
    have hrtbl : r.id ∉ tbl.map (fun u => u.id) :=
      hdisj r (List.mem_cons_self r rest)
    have hperm : (insertById r tbl).Perm (r :: tbl) := insertById_perm hrtbl
    have hpermids : ((insertById r tbl).map (fun u => u.id)).Perm
        (r.id :: tbl.map (fun u => u.id)) := by
      simpa using hperm.map (fun u => u.id)
    have hdisj' : ∀ s ∈ rest,
        s.id ∉ (insertById r tbl).map (fun u => u.id) := by
      intro s hs hc
      have hmem : s.id ∈ r.id :: tbl.map (fun u => u.id) :=
        hpermids.subset hc
      rcases List.mem_cons.mp hmem with h1 | h1
      · exact hr (h1 ▸ List.mem_map_of_mem (fun u => u.id) hs)
      · exact hdisj s (List.mem_cons_of_mem r hs) h1
    have ihh := ih (insertById r tbl) hrest hdisj'
    exact ihh.trans ((List.Perm.append_left rest hperm).trans
      List.perm_middle)

/-! ## C6 — idempotence of the write path -/

/-- C6: for a batch with pairwise-distinct ids (the batch invariant of
spec §3), running `replaceAll` twice with the same records and loading
the table back yields exactly the input records up to order, and the
stored ids contain no duplicates: the drop/recreate makes the second
run independent of the first, and the per-record upsert inserts each
record exactly once. -/
theorem C6_replaceAll_idempotent (prev records : List UserRecord)
    (h : (records.map (fun u => u.id)).Nodup) :
    (loadAll (replaceAll (replaceAll prev records) records)).Perm records ∧
      ((loadAll (replaceAll (replaceAll prev records) records)).map
        (fun u => u.id)).Nodup := by
  constructor
  · have hp := foldl_insertById_perm records [] h
      (by intro s _ hc; simp at hc)
    simpa using hp
  · have hpw := pairwise_replaceAll (replaceAll prev records) records
    have hmap : ((replaceAll (replaceAll prev records) records).map
        (fun u => u.id)).Pairwise (fun a b => a < b) :=
      List.pairwise_map.mpr hpw
    exact List.Pairwise.imp (fun hlt => Int.ne_of_lt hlt) hmap

/-- C6 witness: the idempotence theorem at a concrete two-record batch
given in descending id order. -/
theorem C6_replaceAll_idempotent_witness :
    (([(⟨2, none, none, none, none, none⟩ : UserRecord),
        ⟨1, none, none, none, none, none⟩].map (fun u => u.id)).Nodup) ∧
      ((loadAll (replaceAll
            (replaceAll [] [⟨2, none, none, none, none, none⟩,
              ⟨1, none, none, none, none, none⟩])
            [⟨2, none, none, none, none, none⟩,
              ⟨1, none, none, none, none, none⟩])).Perm
          [⟨2, none, none, none, none, none⟩,
            ⟨1, none, none, none, none, none⟩] ∧
        ((loadAll (replaceAll
            (replaceAll [] [⟨2, none, none, none, none, none⟩,
              ⟨1, none, none, none, none, none⟩])
            [⟨2, none, none, none, none, none⟩,
              ⟨1, none, none, none, none, none⟩])).map
          (fun u => u.id)).Nodup) :=
  ⟨by decide,
   C6_replaceAll_idempotent [] [⟨2, none, none, none, none, none⟩,
     ⟨1, none, none, none, none, none⟩] (by decide)⟩

/-! ## C7 — halt on fetch failure -/

/-- C7: when the single fetch attempt returns a non-success status, the
run halts with the bad-status error before the storage rewrite and
before any rendering: the persisted table is exactly what it was before
the run. -/
theorem C7_fetch_failure_halts (status : Nat)
    (users prev : List UserRecord) (h : status ≠ 200) :
    (runPipeline (HttpResult.response status users) prev).table = prev ∧
      (runPipeline (HttpResult.response status users) prev).halted = true ∧
      (runPipeline (HttpResult.response status users) prev).rendered
        = false ∧
      (runPipeline (HttpResult.response status users) prev).errorMsg =
        some ("Error al consumir la API (" ++ toString status ++ ")") := by
  simp [runPipeline, h]

/-- C7 witness: an HTTP 500 response against a non-empty persisted
table leaves the table unchanged, halts, and renders nothing. -/
theorem C7_fetch_failure_witness :
    ((500 : Nat) ≠ 200) ∧
      ((runPipeline (HttpResult.response 500 [])
            [⟨1, none, none, none, none, none⟩]).table
          = [⟨1, none, none, none, none, none⟩] ∧
        (runPipeline (HttpResult.response 500 [])
            [⟨1, none, none, none, none, none⟩]).halted = true ∧
        (runPipeline (HttpResult.response 500 [])
            [⟨1, none, none, none, none, none⟩]).rendered = false ∧
        (runPipeline (HttpResult.response 500 [])
            [⟨1, none, none, none, none, none⟩]).errorMsg =
          some ("Error al consumir la API (" ++ toString (500 : Nat)
            ++ ")")) :=
  ⟨by decide,
   C7_fetch_failure_halts 500 [] [⟨1, none, none, none, none, none⟩]
     (by decide)⟩

/-! ## C8 — connection release in the write path -/

theorem execWrite_connClosed (fails : WriteStep → Bool)
    (steps : List WriteStep) :
    (execWrite fails steps).connClosed = steps.all (fun s => !fails s) := by
  induction steps with
  | nil => rfl
  | cons s rest ih =>
    by_cases h : fails s
    · simp [execWrite, h]
    · simp [execWrite, h, ih]

/-- C8 (counterexample): a failure at the `conn.commit()` statement of
a one-record batch aborts the write scope with the connection still
open — there is no `try`/`finally` or `with` block, so `conn.close()`
is skipped on the error path, contrary to the claim. -/
theorem C8_close_skipped_counterexample :
    ((execWrite (fun s => decide (s = WriteStep.commit))
          (writeSteps 1)).connClosed = false) ∧
      ¬ ((execWrite (fun s => decide (s = WriteStep.commit))
            (writeSteps 1)).connClosed = true) := by
  refine ⟨?_, ?_⟩ <;> decide

/-- C8 (amended): the connection opened by the write path is closed
exactly on the runs in which every statement of the write scope (drop,
create, the inserts, commit) succeeds; any raising statement skips the
trailing `conn.close()`. -/
theorem C8_close_only_on_success (n : Nat) (fails : WriteStep → Bool) :
    (execWrite fails (writeSteps n)).connClosed =
      (writeSteps n).all (fun s => !fails s) :=
  execWrite_connClosed fails (writeSteps n)

/-! ## C10 — implicit ordering invariant of `loadAll` -/

/-- C10: every batch written by `replaceAll` is read back by `loadAll`
in strictly ascending `id` order: `id` is the `INTEGER PRIMARY KEY`
(the rowid), the upsert fold keeps the table sorted on it, and the
`SELECT` without `ORDER BY` returns the rowid scan, so every downstream
stage observes id-sorted input. -/
theorem C10_loadAll_ascending_ids (prev records : List UserRecord) :
    (loadAll (replaceAll prev records)).Pairwise
      (fun a b => a.id < b.id) :=
  pairwise_replaceAll prev records
